import Mathlib

/-!
Verification of the hybrid retrieval pipeline of an IPC legal chatbot.

The definitions below are a shallow embedding of `src/data_processing.py`
and `src/rag_pipeline.py`.  Strings are modelled as `String` / `List Char`;
Python regular-expression scans are modelled by explicit left-to-right
scanners that reproduce the exact matching behaviour of the patterns used
in the source (all patterns are deterministic: every greedy sub-pattern is
followed by a character class disjoint from it, so maximal-munch scanning
is exactly Python's backtracking semantics).  External collaborators
(SBERT embedding model, FAISS index, cross-encoder re-ranker, the JSON
library) are modelled as function parameters, matching their contracts.
-/

namespace IPCBot

/-! ### Character utilities (ASCII model of Python's str operations) -/

/-- ASCII lower-casing, as used by Python's str.lower for ASCII text. -/
def lowerChar (c : Char) : Char :=
  if 'A' ≤ c ∧ c ≤ 'Z' then Char.ofNat (c.toNat + 32) else c

/-- ASCII upper-casing, as used by Python's str.upper for ASCII text. -/
def upperChar (c : Char) : Char :=
  if 'a' ≤ c ∧ c ≤ 'z' then Char.ofNat (c.toNat - 32) else c

/-- Python regex \s on ASCII: space, tab, newline, carriage return,
vertical tab, form feed. -/
def isSpc (c : Char) : Bool :=
  c = ' ' || c = '\t' || c = '\n' || c = '\r' ||
  c = Char.ofNat 11 || c = Char.ofNat 12

/-- Python regex \d on ASCII digits. -/
def isDig (c : Char) : Bool := '0' ≤ c && c ≤ '9'

/-- Letter class: [A-Z] under re.IGNORECASE, i.e. any ASCII letter. -/
def isAlphaCh (c : Char) : Bool :=
  ('a' ≤ lowerChar c) && (lowerChar c ≤ 'z')

/-- Decimal value of a digit run, as Python's int() on the group. -/
def digitsVal (l : List Char) : Nat :=
  l.foldl (fun n c => 10 * n + (c.toNat - 48)) 0

/-- Case-sensitive prefix test (Python str.startswith / slicing). -/
def startsWithCS : List Char → List Char → Bool
  | _, [] => true
  | [], _ :: _ => false
  | a :: as, b :: bs => a = b && startsWithCS as bs

/-- Case-insensitive prefix test: the pattern must be given lower-case. -/
def startsWithCI : List Char → List Char → Bool
  | _, [] => true
  | [], _ :: _ => false
  | a :: as, b :: bs => lowerChar a = b && startsWithCI as bs

/-- Case-sensitive substring test (Python: pat in s). -/
def containsCS : List Char → List Char → Bool
  | [], pat => pat.isEmpty
  | c :: cs, pat => startsWithCS (c :: cs) pat || containsCS cs pat

/-- Case-insensitive substring test (Python: pat in s.lower(), pattern
given lower-case). -/
def containsCI : List Char → List Char → Bool
  | [], pat => pat.isEmpty
  | c :: cs, pat => startsWithCI (c :: cs) pat || containsCI cs pat

/-- Python str.strip(): whitespace removed from both ends. -/
def stripWS (l : List Char) : List Char :=
  ((l.dropWhile isSpc).reverse.dropWhile isSpc).reverse

/-! ### parse_punishment_years (src/data_processing.py lines 8-39) -/

/-- Scan for the first occurrence of "Punishment:" (re.IGNORECASE) and
return the remaining text after it, as in
re.search(r'Punishment:\s*(.*)', text, re.IGNORECASE). -/
def findPunishClause : List Char → Option (List Char)
  | [] => none
  | c :: cs =>
    if startsWithCI (c :: cs) "punishment:".data then
      some ((c :: cs).drop 11)
    else
      findPunishClause cs

/-- The clause string the source binds to punishment_text: the regex
group \s*(.*) (whitespace skipped, rest of line) followed by .strip(). -/
def clauseOf (t : String) : List Char :=
  match findPunishClause t.data with
  | some rest => stripWS ((rest.dropWhile isSpc).takeWhile (fun c => c ≠ '\n'))
  | none => []

/-- One match attempt of r'(\d+)\s*(?:to|-)\s*(\d+)\s*(?:years|year)'
(re.IGNORECASE) at a position starting with character c; cs is the rest.
Returns the two numeric groups and the text after the match.  The
returned rest is always obtained from cs by take/drop operations. -/
def matchRangeTail (c : Char) (cs : List Char) : Option (Nat × Nat × List Char) :=
  if isDig c then
    let ds1 := c :: cs.takeWhile isDig
    let r1 := cs.dropWhile isDig
    let r2 := r1.dropWhile isSpc
    let r3? : Option (List Char) :=
      if startsWithCI r2 "to".data then some (r2.drop 2)
      else if startsWithCS r2 "-".data then some (r2.drop 1)
      else none
    match r3? with
    | none => none
    | some r3 =>
      let r4 := r3.dropWhile isSpc
      let ds2 := r4.takeWhile isDig
      if ds2.isEmpty then none
      else
        let r5 := (r4.drop ds2.length).dropWhile isSpc
        if startsWithCI r5 "years".data then
          some (digitsVal ds1, digitsVal ds2, r5.drop 5)
        else if startsWithCI r5 "year".data then
          some (digitsVal ds1, digitsVal ds2, r5.drop 4)
        else none
  else none

theorem length_dropWhile_le (p : Char → Bool) (l : List Char) :
    (l.dropWhile p).length ≤ l.length := by
  induction l with
  | nil => simp [List.dropWhile]
  | cons a t ih =>
    by_cases h : p a
    · simp only [List.dropWhile, h]
      exact Nat.le_succ_of_le ih
    · simp [List.dropWhile, h]

theorem matchRangeTail_rest_le (c : Char) (cs : List Char) (a b : Nat)
    (rest : List Char) (h : matchRangeTail c cs = some (a, b, rest)) :
    rest.length ≤ cs.length := by
  unfold matchRangeTail at h
  by_cases hc : isDig c
  · simp only [hc, if_true] at h
    have h1 : (cs.dropWhile isDig).length ≤ cs.length := length_dropWhile_le _ _
    have h2 : ((cs.dropWhile isDig).dropWhile isSpc).length ≤ cs.length :=
      le_trans (length_dropWhile_le _ _) h1
    set r2 := (cs.dropWhile isDig).dropWhile isSpc with hr2
    by_cases hto : startsWithCI r2 "to".data
    · simp only [hto, if_true] at h
      have h3 : (r2.drop 2).length ≤ cs.length :=
        le_trans (by simp [List.length_drop]) h2
      set r3 := r2.drop 2 with hr3
      have h4a : (r3.dropWhile isSpc).length ≤ cs.length :=
        le_trans (length_dropWhile_le isSpc r3) h3
      have h4 : ((r3.dropWhile isSpc).drop
          ((r3.dropWhile isSpc).takeWhile isDig).length).length ≤ cs.length :=
        le_trans (by simp [List.length_drop]) h4a
      set r4 := r3.dropWhile isSpc with hr4
      by_cases hds : (r4.takeWhile isDig).isEmpty
      · simp [hds] at h
      · simp only [hds, if_false, Bool.false_eq_true] at h
        set r5 := (r4.drop (r4.takeWhile isDig).length).dropWhile isSpc with hr5
        have h5 : r5.length ≤ cs.length :=
          le_trans (length_dropWhile_le isSpc _) h4
        by_cases hy5 : startsWithCI r5 "years".data
        · simp only [hy5, if_true, Option.some.injEq, Prod.mk.injEq] at h
          have := h.2.2
          subst this
          exact le_trans (by simp [List.length_drop]) h5
        · simp only [hy5, if_false, Bool.false_eq_true] at h
          by_cases hy4 : startsWithCI r5 "year".data
          · simp only [hy4, if_true, Option.some.injEq, Prod.mk.injEq] at h
            have := h.2.2
            subst this
            exact le_trans (by simp [List.length_drop]) h5
          · simp [hy4] at h
    · simp only [hto, if_false, Bool.false_eq_true] at h
      by_cases hda : startsWithCS r2 "-".data
      · simp only [hda, if_true] at h
        have h3 : (r2.drop 1).length ≤ cs.length :=
          le_trans (by simp [List.length_drop]) h2
        set r3 := r2.drop 1 with hr3
        have h4a : (r3.dropWhile isSpc).length ≤ cs.length :=
          le_trans (length_dropWhile_le isSpc r3) h3
        have h4 : ((r3.dropWhile isSpc).drop
            ((r3.dropWhile isSpc).takeWhile isDig).length).length ≤ cs.length :=
          le_trans (by simp [List.length_drop]) h4a
        set r4 := r3.dropWhile isSpc with hr4
        by_cases hds : (r4.takeWhile isDig).isEmpty
        · simp [hds] at h
        · simp only [hds, if_false, Bool.false_eq_true] at h
          set r5 := (r4.drop (r4.takeWhile isDig).length).dropWhile isSpc with hr5
          have h5 : r5.length ≤ cs.length :=
            le_trans (length_dropWhile_le isSpc _) h4
          by_cases hy5 : startsWithCI r5 "years".data
          · simp only [hy5, if_true, Option.some.injEq, Prod.mk.injEq] at h
            have := h.2.2
            subst this
            exact le_trans (by simp [List.length_drop]) h5
          · simp only [hy5, if_false, Bool.false_eq_true] at h
            by_cases hy4 : startsWithCI r5 "year".data
            · simp only [hy4, if_true, Option.some.injEq, Prod.mk.injEq] at h
              have := h.2.2
              subst this
              exact le_trans (by simp [List.length_drop]) h5
            · simp [hy4] at h
      · simp [hda] at h
  · simp [hc] at h

/-- Fuel-indexed scanner for re.findall of the range pattern.  The fuel
only serves to make the recursion structural (so that the kernel can
evaluate it); by matchRangeTail_rest_le the list argument shrinks at
every step, so any fuel at least the list length gives the same result
(findallAux_congr below), namely the non-overlapping left-to-right scan
that resumes after each match. -/
def findallAux : Nat → List Char → List (Nat × Nat)
  | 0, _ => []
  | _ + 1, [] => []
  | fuel + 1, c :: cs =>
    match matchRangeTail c cs with
    | some (a, b, rest) => (a, b) :: findallAux fuel rest
    | none => findallAux fuel cs

/-- re.findall of the range pattern: non-overlapping matches scanned
left to right; after a match scanning resumes at the end of the match
(see findallRanges_cons for the recurrence this satisfies). -/
def findallRanges (l : List Char) : List (Nat × Nat) := findallAux l.length l

theorem findallAux_congr : ∀ (f1 f2 : Nat) (l : List Char),
    l.length ≤ f1 → l.length ≤ f2 → findallAux f1 l = findallAux f2 l := by
  intro f1
  induction f1 with
  | zero =>
    intro f2 l h1 _
    have : l = [] := List.eq_nil_of_length_eq_zero (Nat.le_zero.mp h1)
    subst this
    cases f2 with
    | zero => rfl
    | succ m => rfl
  | succ n ih =>
    intro f2 l h1 h2
    cases l with
    | nil =>
      cases f2 with
      | zero => rfl
      | succ m => rfl
    | cons c cs =>
      rw [List.length_cons] at h1 h2
      cases f2 with
      | zero => omega
      | succ m =>
        rw [findallAux, findallAux]
        cases hm : matchRangeTail c cs with
        | some pr =>
          obtain ⟨a, pr2⟩ := pr
          obtain ⟨b, rest⟩ := pr2
          have hle := matchRangeTail_rest_le c cs a b rest hm
          change (a, b) :: findallAux n rest = (a, b) :: findallAux m rest
          rw [ih m rest (by omega) (by omega)]
        | none =>
          change findallAux n cs = findallAux m cs
          exact ih m cs (by omega) (by omega)

theorem findallRanges_cons (c : Char) (cs : List Char) :
    findallRanges (c :: cs) =
      match matchRangeTail c cs with
      | some (a, b, rest) => (a, b) :: findallRanges rest
      | none => findallRanges cs := by
  rw [findallRanges, List.length_cons, findallAux]
  cases hm : matchRangeTail c cs with
  | some pr =>
    obtain ⟨a, pr2⟩ := pr
    obtain ⟨b, rest⟩ := pr2
    have hle := matchRangeTail_rest_le c cs a b rest hm
    change (a, b) :: findallAux cs.length rest = (a, b) :: findallRanges rest
    rw [findallRanges, findallAux_congr cs.length rest.length rest (by omega) (by omega)]
  | none =>
    change findallAux cs.length cs = findallRanges cs
    rw [findallRanges]

/-- max(int(yr) for r in year_ranges for yr in r): maximum over both
components of every range (all values are naturals, so folding from 0
agrees with Python's max over the non-empty generator). -/
def maxOfRanges (l : List (Nat × Nat)) : Nat :=
  l.foldl (fun m p => max m (max p.1 p.2)) 0

/-- One match attempt of r'(\d+)\s*(?:years|year)' at a position. -/
def matchSingleYearAt : List Char → Option Nat
  | [] => none
  | c :: cs =>
    if isDig c then
      let ds := c :: cs.takeWhile isDig
      let r1 := (cs.dropWhile isDig).dropWhile isSpc
      if startsWithCI r1 "year".data then some (digitsVal ds) else none
    else none

/-- First match of r'(\d+)\s*(?:years|year)' (re.IGNORECASE): the source
only uses year_matches[0], so a leftmost scan suffices. -/
def firstSingleYear : List Char → Option Nat
  | [] => none
  | c :: cs =>
    match matchSingleYearAt (c :: cs) with
    | some n => some n
    | none => firstSingleYear cs

/-- The year-determination chain of src/data_processing.py lines 25-37,
expressed on the already-extracted clause: ranges take priority, then
the first single "N years" match, then "life" (999), then "death"
(1000), else none. -/
def yearsOfClause (clause : List Char) : Option Nat :=
  let ranges := findallRanges clause
  if ranges.isEmpty then
    match firstSingleYear clause with
    | some n => some n
    | none =>
      if containsCI clause "life".data then some 999
      else if containsCI clause "death".data then some 1000
      else none
  else some (maxOfRanges ranges)

/-- src/data_processing.py lines 8-39.  Returns (years, punishment_text). -/
def parse_punishment_years (text : String) : Option Nat × String :=
  (yearsOfClause (clauseOf text), String.mk (clauseOf text))

/-! ### load_data_structured (src/data_processing.py lines 41-83) -/

/-- One match attempt of r'IPC\s*(\d+[A-Z]*)' (re.IGNORECASE) at a
position, returning the whole matched span (group 0). -/
def matchIPC0At (l : List Char) : Option (List Char) :=
  if startsWithCI l "ipc".data then
    let ipc3 := l.take 3
    let r1 := l.drop 3
    let sp := r1.takeWhile isSpc
    let r2 := r1.drop sp.length
    let ds := r2.takeWhile isDig
    if ds.isEmpty then none
    else some (ipc3 ++ sp ++ ds ++ (r2.drop ds.length).takeWhile isAlphaCh)
  else none

/-- Leftmost match of the IPC-section pattern (re.search), group 0. -/
def scanIPC0 : List Char → Option (List Char)
  | [] => none
  | c :: cs =>
    match matchIPC0At (c :: cs) with
    | some span => some span
    | none => scanIPC0 cs

/-- ipc_section_match.group(0).upper() if matched, else "UNKNOWN"
(src/data_processing.py lines 64-65). -/
def ipcSectionId (t : String) : String :=
  match scanIPC0 t.data with
  | some span => String.mk (span.map upperChar)
  | none => "UNKNOWN"

/-- text.split(sep=colon, maxsplit=1)[1]: everything after the first
colon.  In the source this is only evaluated when a colon is known to
exist (the text contains "Punishment:"). -/
def afterFirstColon : List Char → List Char
  | [] => []
  | c :: cs => if c = ':' then cs else afterFirstColon cs

/-- s.split("Punishment:", 1)[0]: the part before the first
(case-sensitive) occurrence of the pattern; the whole string when the
pattern is absent. -/
def beforeSub (pat : List Char) : List Char → List Char
  | [] => []
  | c :: cs => if startsWithCS (c :: cs) pat then [] else c :: beforeSub pat cs

/-- The description_summary expression of src/data_processing.py line 71:
text.split(colon)[1].split("Punishment:")[0].strip() when "Punishment:"
occurs in the text (case-sensitively), else the text itself. -/
def description_summary (t : String) : String :=
  if containsCS t.data "Punishment:".data then
    String.mk (stripWS (beforeSub "Punishment:".data (afterFirstColon t.data)))
  else t

/-- Modelled from the spec (section 3, summary field): the spec says the
summary is always the raw text with the leading label stripped and any
trailing "Punishment:" clause removed, with no branch for clause-free
texts.  Used only to compare the spec's description against the code. -/
def summarySpec (t : String) : String :=
  String.mk (stripWS (beforeSub "Punishment:".data (afterFirstColon t.data)))

/-- One structured corpus record (the dict built at
src/data_processing.py lines 69-74). -/
structure IPCRecord where
  ipc_section_id : String
  description_summary : String
  punishment_years : Option Nat
  original_text : String
deriving DecidableEq

/-- Construction of the structured record from one entry's text. -/
def mkRecord (t : String) : IPCRecord :=
  { ipc_section_id := ipcSectionId t
    description_summary := description_summary t
    punishment_years := (parse_punishment_years t).1
    original_text := t }

/-- The skip test of src/data_processing.py line 60:
"nan" in text.lower() or len(text) < 20. -/
def skipEntry (t : String) : Bool :=
  containsCI t.data "nan".data || decide (t.length < 20)

/-- Outcome of json.loads(line) followed by entry.get("text", ""):
either a JSONDecodeError, some other exception (e.g. the entry is valid
JSON but not an object), or a text string.  The JSON library is an
external collaborator, so it is a parameter of the loader. -/
inductive LineParse where
  | malformed : LineParse
  | errored : LineParse
  | ok : String → LineParse
deriving DecidableEq

/-- Processing of one line inside the with-open loop
(src/data_processing.py lines 55-78): decode errors and other
per-line exceptions are logged and skipped; short or "nan" texts are
skipped and counted; anything else appends one structured record. -/
def loadStep (acc : List IPCRecord × Nat) (pr : LineParse) : List IPCRecord × Nat :=
  match pr with
  | .malformed => acc
  | .errored => acc
  | .ok t => if skipEntry t then (acc.1, acc.2 + 1) else (acc.1 ++ [mkRecord t], acc.2)

/-- src/data_processing.py lines 41-83.  The file system is modelled by
an Option: none means open() raises FileNotFoundError, which the source
re-raises; some lines is the sequence of lines read.  The result pairs
the structured records with the skipped_count. -/
def load_data_structured (file : Option (List String))
    (parseLine : String → LineParse) : Except String (List IPCRecord × Nat) :=
  match file with
  | none => Except.error "FileNotFoundError"
  | some lines =>
    Except.ok (lines.foldl (fun acc line => loadStep acc (parseLine line)) ([], 0))

/-! ### retrieve_relevant_ipc_hybrid (src/rag_pipeline.py lines 106-192) -/

/-- One match attempt of r'greater than (\d+)\s*(?:years|year)?'
(re.IGNORECASE) at a position.  The year unit is optional in the source
pattern, so it does not influence the extracted group. -/
def matchGTAt (l : List Char) : Option Nat :=
  if startsWithCI l "greater than ".data then
    let ds := (l.drop 13).takeWhile isDig
    if ds.isEmpty then none else some (digitsVal ds)
  else none

/-- Leftmost scan for the numeric-filter pattern. -/
def extractMinYearsAux : List Char → Option Nat
  | [] => none
  | c :: cs =>
    match matchGTAt (c :: cs) with
    | some n => some n
    | none => extractMinYearsAux cs

/-- The min_years_threshold extraction of src/rag_pipeline.py
lines 133-136: re.search of the pattern, int of group 1. -/
def extract_min_years (q : String) : Option Nat :=
  extractMinYearsAux q.data

/-- The per-record numeric filter condition of src/rag_pipeline.py
line 140: punishment_years is not None and punishment_years > N. -/
def passesFilter (n : Nat) (r : IPCRecord) : Bool :=
  match r.punishment_years with
  | some y => decide (n < y)
  | none => false

/-- One match attempt of r'IPC\s*(\d+[A-Z]*)' at a position, returning
group 1 split into its digit part and its letter part. -/
def matchIPCGroupAt (l : List Char) : Option (List Char × List Char) :=
  if startsWithCI l "ipc".data then
    let r2 := (l.drop 3).dropWhile isSpc
    let ds := r2.takeWhile isDig
    if ds.isEmpty then none
    else some (ds, (r2.drop ds.length).takeWhile isAlphaCh)
  else none

/-- Leftmost match of the IPC-section pattern in the query (group 1). -/
def extractIPCGroup : List Char → Option (List Char × List Char)
  | [] => none
  | c :: cs =>
    match matchIPCGroupAt (c :: cs) with
    | some r => some r
    | none => extractIPCGroup cs

/-- Vector-search candidate collection (src/rag_pipeline.py lines
174-177): every index idx with 0 <= idx < len(metadata) contributes
metadata[idx]; all other indices are skipped.  FAISS returns machine
integers, which may be negative (e.g. -1 padding), hence Int. -/
def semanticMatches (metadata : List String) : List Int → List String
  | [] => []
  | idx :: rest =>
    if h : 0 ≤ idx ∧ idx < (metadata.length : Int) then
      metadata.get ⟨idx.toNat, by omega⟩ :: semanticMatches metadata rest
    else semanticMatches metadata rest

/-- The merge loop of src/rag_pipeline.py lines 179-184: walk the
concatenated candidates keeping each text the first time it is seen. -/
def dedupFirst (seen : List String) : List String → List String
  | [] => []
  | x :: xs =>
    if x ∈ seen then dedupFirst seen xs else x :: dedupFirst (x :: seen) xs

/-- combined_results_for_reranking: first-occurrence dedup of the
concatenation of the three candidate lists. -/
def mergeDedup (l : List String) : List String := dedupFirst [] l

/-- Stable insertion into a list sorted by key descending: the inserted
element goes before the first element whose key is not larger, which is
the placement Python's stable sorted(key, reverse=True) gives when the
inserted element originally preceded the list's elements. -/
def insertDescBy {α β : Type} [LinearOrder α] (key : β → α) (a : β) :
    List β → List β
  | [] => [a]
  | b :: l => if key b ≤ key a then a :: b :: l else b :: insertDescBy key a l

/-- Stable sort by key descending, equal to Python's
sorted(xs, key, reverse=True). -/
def sortDescBy {α β : Type} [LinearOrder α] (key : β → α) : List β → List β
  | [] => []
  | a :: l => insertDescBy key a (sortDescBy key l)

/-- The re-ranking step shared by both paths (src/rag_pipeline.py lines
143-147 and 189-192): score one (query, doc) pair per document with the
cross-encoder, sort descending by score (stable), keep the first k
documents.  The cross-encoder is an external collaborator modelled as a
per-pair scoring function into a linearly ordered score type. -/
def rerankTop {α : Type} [LinearOrder α] (score : String → String → α)
    (query : String) (docs : List String) (k : Nat) : List String :=
  let scored := docs.map (fun doc => (doc, score query doc))
  ((sortDescBy (fun p => p.2) scored).take k).map (fun p => p.1)

/-- Lines 186-192 of src/rag_pipeline.py: if the merged candidate list
is empty, return [] without invoking the re-ranker; else re-rank. -/
def rerankOrEmpty {α : Type} [LinearOrder α] (score : String → String → α)
    (query : String) (docs : List String) (k : Nat) : List String :=
  if docs.isEmpty then [] else rerankTop score query docs k

/-- The keyword candidate generator (src/rag_pipeline.py lines 154-159):
topic-gated on "child"/"minor" in the lowered query; when triggered it
returns, in corpus order, the original text of every record whose
lowered text contains one of the two terms. -/
def keywordMatches (query : String) (structured : List IPCRecord) : List String :=
  if containsCI query.data "child".data || containsCI query.data "minor".data then
    (structured.filter (fun r =>
      containsCI r.original_text.data "child".data ||
      containsCI r.original_text.data "minor".data)).map (fun r => r.original_text)
  else []

/-- The exact IPC-section candidate generator (src/rag_pipeline.py lines
161-168): with the query's IPC group (digits, letters), look up the
first metadata text whose lower-cased text starts with
"ipc " + digits + lower(letters) (the source builds "IPC " + group.upper()
and compares both sides lower-cased); the break makes it at most one. -/
def sectionLookup (metadata : List String) :
    Option (List Char × List Char) → List String
  | some (ds, ls) =>
    match metadata.find? (fun t =>
        startsWithCI t.data (['i', 'p', 'c', ' '] ++ ds ++ ls.map lowerChar)) with
    | some t => [t]
    | none => []
  | none => []

/-- The hybrid path of src/rag_pipeline.py lines 151-192: keyword
matching, exact IPC-section lookup, vector search, merge/dedup, and
re-ranking to k_final.  The embedding model and FAISS index are external
collaborators modelled as functions; fsearch embeds the call
faiss_index.search(embedding, k_initial) returning the index row. -/
def hybridPath {E α : Type} [LinearOrder α]
    (embed : String → E) (fsearch : E → Nat → List Int)
    (score : String → String → α)
    (query : String) (structured : List IPCRecord) (metadata : List String)
    (k_initial k_final : Nat) : List String :=
  let keyword_matches := keywordMatches query structured
  let retrieved_sections := sectionLookup metadata (extractIPCGroup query.data)
  let semantic_matches := semanticMatches metadata (fsearch (embed query) k_initial)
  let combined := mergeDedup (keyword_matches ++ retrieved_sections ++ semantic_matches)
  rerankOrEmpty score query combined k_final

/-- src/rag_pipeline.py lines 106-192, the public entry point.  When the
numeric-filter pattern matches, the corpus is filtered by
punishment_years > N; a non-empty filtered set is re-ranked and returned
(top 20); an empty one falls through to the hybrid path, as does an
inactive filter. -/
def retrieve_relevant_ipc_hybrid {E α : Type} [LinearOrder α]
    (embed : String → E) (fsearch : E → Nat → List Int)
    (score : String → String → α)
    (query : String) (structured : List IPCRecord) (metadata : List String)
    (k_initial k_final : Nat) : List String :=
  match extract_min_years query with
  | some n =>
    let filtered := (structured.filter (passesFilter n)).map (fun r => r.original_text)
    if filtered.isEmpty then
      hybridPath embed fsearch score query structured metadata k_initial k_final
    else
      rerankTop score query filtered 20
  | none => hybridPath embed fsearch score query structured metadata k_initial k_final

/-! ### Spec-side predicates (formalisations of the claims' wording,
used only to state and refute claims, never as the embedding) -/

/-- One match attempt of the spec's phrase "greater than N (years|year)"
with the year unit REQUIRED, as claims C1 and C6 read the contract. -/
def matchGTYearsAt (l : List Char) : Option Nat :=
  if startsWithCI l "greater than ".data then
    let rest := l.drop 13
    let ds := rest.takeWhile isDig
    if ds.isEmpty then none
    else if startsWithCI ((rest.drop ds.length).dropWhile isSpc) "year".data then
      some (digitsVal ds)
    else none
  else none

/-- The query contains (anywhere) a phrase "greater than N years" for
some N, with the unit required: the claims' activation condition. -/
def hasGTYearsPhrase : List Char → Bool
  | [] => false
  | c :: cs => (matchGTYearsAt (c :: cs)).isSome || hasGTYearsPhrase cs

/-- The query contains the phrase "greater than N years" for the given
N, with the unit required. -/
def containsGTYearsN : List Char → Nat → Bool
  | [], _ => false
  | c :: cs, n => (matchGTYearsAt (c :: cs) == some n) || containsGTYearsN cs n

/-- The query contains (anywhere) "greater than N" with optional unit:
the activation condition the source actually implements. -/
def hasGTNumPhrase : List Char → Bool
  | [] => false
  | c :: cs => (matchGTAt (c :: cs)).isSome || hasGTNumPhrase cs

/-! ### Helper lemmas about the sorting, dedup and vector-candidate
steps, shared by several claim theorems -/

theorem insertDescBy_perm {α β : Type} [LinearOrder α] (key : β → α) (a : β)
    (l : List β) : List.Perm (insertDescBy key a l) (a :: l) := by
  induction l with
  | nil => exact List.Perm.refl _
  | cons b t ih =>
    by_cases h : key b ≤ key a
    · simp [insertDescBy, h]
    · simp only [insertDescBy, h, if_false]
      exact (ih.cons b).trans (List.Perm.swap a b t)

theorem sortDescBy_perm {α β : Type} [LinearOrder α] (key : β → α)
    (l : List β) : List.Perm (sortDescBy key l) l := by
  induction l with
  | nil => exact List.Perm.refl _
  | cons a t ih => exact (insertDescBy_perm key a _).trans (ih.cons a)

theorem insertDescBy_pairwise {α β : Type} [LinearOrder α] (key : β → α)
    (a : β) (l : List β) (h : l.Pairwise (fun x y => key y ≤ key x)) :
    (insertDescBy key a l).Pairwise (fun x y => key y ≤ key x) := by
  induction l with
  | nil => simp [insertDescBy]
  | cons b t ih =>
    rcases List.pairwise_cons.mp h with ⟨hb, ht⟩
    by_cases hba : key b ≤ key a
    · simp only [insertDescBy, hba, if_true]
      refine List.pairwise_cons.mpr ⟨?_, h⟩
      intro y hy
      rcases List.mem_cons.mp hy with rfl | hyt
      · exact hba
      · exact le_trans (hb y hyt) hba
    · simp only [insertDescBy, hba, if_false]
      refine List.pairwise_cons.mpr ⟨?_, ih ht⟩
      intro y hy
      rcases List.mem_cons.mp ((insertDescBy_perm key a t).mem_iff.mp hy) with rfl | hyt
      · exact le_of_lt (lt_of_not_le hba)
      · exact hb y hyt

theorem sortDescBy_pairwise {α β : Type} [LinearOrder α] (key : β → α)
    (l : List β) :
    (sortDescBy key l).Pairwise (fun x y => key y ≤ key x) := by
  induction l with
  | nil => simp [sortDescBy]
  | cons a t ih => exact insertDescBy_pairwise key a _ ih

theorem rerankTop_mem {α : Type} [LinearOrder α] (score : String → String → α)
    (query : String) (docs : List String) (k : Nat) {x : String}
    (hx : x ∈ rerankTop score query docs k) : x ∈ docs := by
  unfold rerankTop at hx
  rcases List.mem_map.mp hx with ⟨p, hp, hpx⟩
  have hp2 := (List.take_sublist k _).subset hp
  have hp3 := (sortDescBy_perm (fun p : String × α => p.2) _).mem_iff.mp hp2
  rcases List.mem_map.mp hp3 with ⟨d, hd, hdp⟩
  rw [← hpx, ← hdp]
  exact hd

theorem rerankTop_length_le {α : Type} [LinearOrder α]
    (score : String → String → α) (query : String) (docs : List String)
    (k : Nat) : (rerankTop score query docs k).length ≤ k := by
  unfold rerankTop
  simp only [List.length_map, List.length_take]
  exact Nat.min_le_left _ _

theorem rerankTop_ne_nil {α : Type} [LinearOrder α]
    (score : String → String → α) (query : String) (docs : List String)
    (k : Nat) (hd : docs ≠ []) (hk : 0 < k) :
    rerankTop score query docs k ≠ [] := by
  unfold rerankTop
  intro h
  have hlen := congrArg List.length h
  simp only [List.length_map, List.length_take, List.length_nil] at hlen
  have hperm := (sortDescBy_perm (fun p : String × α => p.2)
    (docs.map fun doc => (doc, score query doc))).length_eq
  rw [List.length_map] at hperm
  have hne : docs.length ≠ 0 := fun h0 => hd (List.length_eq_zero.mp h0)
  omega

theorem mem_scored_shape {α : Type} (score : String → String → α)
    (query : String) (docs : List String) {p : String × α}
    (hp : p ∈ docs.map (fun doc => (doc, score query doc))) :
    p.2 = score query p.1 := by
  rcases List.mem_map.mp hp with ⟨d, _, hdp⟩
  rw [← hdp]

theorem rerankTop_nodup {α : Type} [LinearOrder α]
    (score : String → String → α) (query : String) (docs : List String)
    (k : Nat) (hd : docs.Nodup) : (rerankTop score query docs k).Nodup := by
  unfold rerankTop
  have h1 : (docs.map fun doc => (doc, score query doc)).Nodup :=
    hd.map_on (fun x _ y _ hxy => (Prod.ext_iff.mp hxy).1)
  have h2 : (sortDescBy (fun p : String × α => p.2)
      (docs.map fun doc => (doc, score query doc))).Nodup :=
    h1.perm (sortDescBy_perm _ _).symm
  have h3 := h2.sublist (List.take_sublist k _)
  refine h3.map_on ?_
  intro x hx y hy hxy
  have hxs := (sortDescBy_perm (fun p : String × α => p.2) _).mem_iff.mp
    ((List.take_sublist k _).subset hx)
  have hys := (sortDescBy_perm (fun p : String × α => p.2) _).mem_iff.mp
    ((List.take_sublist k _).subset hy)
  have hxsh := mem_scored_shape score query docs hxs
  have hysh := mem_scored_shape score query docs hys
  refine Prod.ext hxy ?_
  rw [hxsh, hysh, hxy]

theorem rerankTop_sorted {α : Type} [LinearOrder α]
    (score : String → String → α) (query : String) (docs : List String)
    (k : Nat) :
    (rerankTop score query docs k).Pairwise
      (fun a b => score query b ≤ score query a) := by
  unfold rerankTop
  rw [List.pairwise_map]
  have hs := sortDescBy_pairwise (fun p : String × α => p.2)
    (docs.map fun doc => (doc, score query doc))
  have ht := hs.sublist (List.take_sublist k _)
  refine List.Pairwise.imp_of_mem ?_ ht
  intro a b ha hb hab
  have has := (sortDescBy_perm (fun p : String × α => p.2) _).mem_iff.mp
    ((List.take_sublist k _).subset ha)
  have hbs := (sortDescBy_perm (fun p : String × α => p.2) _).mem_iff.mp
    ((List.take_sublist k _).subset hb)
  rw [← mem_scored_shape score query docs has,
    ← mem_scored_shape score query docs hbs]
  exact hab

theorem mem_dedupFirst {x : String} : ∀ (seen l : List String),
    x ∈ dedupFirst seen l ↔ x ∈ l ∧ x ∉ seen := by
  intro seen l
  induction l generalizing seen with
  | nil => simp [dedupFirst]
  | cons a t ih =>
    by_cases h : a ∈ seen
    · rw [dedupFirst, if_pos h, ih]
      constructor
      · rintro ⟨hx, hns⟩
        exact ⟨List.mem_cons_of_mem a hx, hns⟩
      · rintro ⟨hx, hns⟩
        rcases List.mem_cons.mp hx with rfl | hxt
        · exact absurd h hns
        · exact ⟨hxt, hns⟩
    · rw [dedupFirst, if_neg h, List.mem_cons, ih]
      constructor
      · rintro (rfl | ⟨hxt, hns⟩)
        · exact ⟨List.mem_cons_self x t, h⟩
        · exact ⟨List.mem_cons_of_mem a hxt,
            fun hs => hns (List.mem_cons_of_mem a hs)⟩
      · rintro ⟨hx, hns⟩
        by_cases hxa : x = a
        · exact Or.inl hxa
        · rcases List.mem_cons.mp hx with rfl | hxt
          · exact absurd rfl hxa
          · refine Or.inr ⟨hxt, ?_⟩
            intro hc
            rcases List.mem_cons.mp hc with h1 | h2
            · exact hxa h1
            · exact hns h2

theorem nodup_dedupFirst : ∀ (seen l : List String),
    (dedupFirst seen l).Nodup := by
  intro seen l
  induction l generalizing seen with
  | nil => simp [dedupFirst]
  | cons a t ih =>
    by_cases h : a ∈ seen
    · rw [dedupFirst, if_pos h]
      exact ih seen
    · rw [dedupFirst, if_neg h]
      refine List.nodup_cons.mpr ⟨?_, ih (a :: seen)⟩
      intro hmem
      exact ((mem_dedupFirst (a :: seen) t).mp hmem).2 (List.mem_cons_self a seen)

theorem pairwise_indexOf_dedupFirst : ∀ (seen l : List String),
    (dedupFirst seen l).Pairwise (fun a b => l.indexOf a < l.indexOf b) := by
  intro seen l
  induction l generalizing seen with
  | nil => simp [dedupFirst]
  | cons x xs ih =>
    by_cases h : x ∈ seen
    · rw [dedupFirst, if_pos h]
      refine List.Pairwise.imp_of_mem ?_ (ih seen)
      intro a b ha hb hab
      have hax : a ≠ x := by
        intro he
        exact ((mem_dedupFirst seen xs).mp ha).2 (he ▸ h)
      have hbx : b ≠ x := by
        intro he
        exact ((mem_dedupFirst seen xs).mp hb).2 (he ▸ h)
      rw [List.indexOf_cons_ne xs (Ne.symm hax), List.indexOf_cons_ne xs (Ne.symm hbx)]
      omega
    · rw [dedupFirst, if_neg h]
      refine List.pairwise_cons.mpr ⟨?_, ?_⟩
      · intro b hb
        have hbx : b ≠ x := by
          intro he
          exact ((mem_dedupFirst (x :: seen) xs).mp hb).2
            (he ▸ List.mem_cons_self x seen)
        rw [List.indexOf_cons_self, List.indexOf_cons_ne xs (Ne.symm hbx)]
        omega
      · refine List.Pairwise.imp_of_mem ?_ (ih (x :: seen))
        intro a b ha hb hab
        have hax : a ≠ x := by
          intro he
          exact ((mem_dedupFirst (x :: seen) xs).mp ha).2
            (he ▸ List.mem_cons_self x seen)
        have hbx : b ≠ x := by
          intro he
          exact ((mem_dedupFirst (x :: seen) xs).mp hb).2
            (he ▸ List.mem_cons_self x seen)
        rw [List.indexOf_cons_ne xs (Ne.symm hax), List.indexOf_cons_ne xs (Ne.symm hbx)]
        omega

theorem mem_semanticMatches (metadata : List String) :
    ∀ (idxs : List Int) (x : String), x ∈ semanticMatches metadata idxs →
      x ∈ metadata := by
  intro idxs
  induction idxs with
  | nil => intro x hx; cases hx
  | cons i rest ih =>
    intro x hx
    rw [semanticMatches] at hx
    by_cases h : 0 ≤ i ∧ i < (metadata.length : Int)
    · rw [dif_pos h] at hx
      rcases List.mem_cons.mp hx with rfl | hxt
      · exact List.get_mem _ _ _
      · exact ih x hxt
    · rw [dif_neg h] at hx
      exact ih x hx

theorem exists_mem_hasGTNum : ∀ (l : List Char),
    (extractMinYearsAux l).isSome = hasGTNumPhrase l := by
  intro l
  induction l with
  | nil => rfl
  | cons c cs ih =>
    rw [extractMinYearsAux, hasGTNumPhrase]
    cases h : matchGTAt (c :: cs) with
    | some n => simp [h]
    | none => simp [h, ih]

theorem rerankOrEmpty_mem {α : Type} [LinearOrder α]
    (score : String → String → α) (query : String) (docs : List String)
    (k : Nat) {x : String} (hx : x ∈ rerankOrEmpty score query docs k) :
    x ∈ docs := by
  rw [rerankOrEmpty] at hx
  by_cases h : docs.isEmpty
  · rw [if_pos h] at hx
    cases hx
  · rw [if_neg h] at hx
    exact rerankTop_mem score query docs k hx

theorem rerankOrEmpty_nodup {α : Type} [LinearOrder α]
    (score : String → String → α) (query : String) (docs : List String)
    (k : Nat) (hd : docs.Nodup) :
    (rerankOrEmpty score query docs k).Nodup := by
  rw [rerankOrEmpty]
  by_cases h : docs.isEmpty
  · rw [if_pos h]
    exact List.nodup_nil
  · rw [if_neg h]
    exact rerankTop_nodup score query docs k hd

theorem rerankOrEmpty_length_le {α : Type} [LinearOrder α]
    (score : String → String → α) (query : String) (docs : List String)
    (k : Nat) : (rerankOrEmpty score query docs k).length ≤ k := by
  rw [rerankOrEmpty]
  by_cases h : docs.isEmpty
  · rw [if_pos h]
    exact Nat.zero_le k
  · rw [if_neg h]
    exact rerankTop_length_le score query docs k

theorem hybridPath_length_le {E α : Type} [LinearOrder α]
    (embed : String → E) (fsearch : E → Nat → List Int)
    (score : String → String → α) (query : String)
    (structured : List IPCRecord) (metadata : List String)
    (k_initial k_final : Nat) :
    (hybridPath embed fsearch score query structured metadata
      k_initial k_final).length ≤ k_final := by
  simp only [hybridPath]
  exact rerankOrEmpty_length_le score query _ k_final

theorem hybridPath_nodup {E α : Type} [LinearOrder α]
    (embed : String → E) (fsearch : E → Nat → List Int)
    (score : String → String → α) (query : String)
    (structured : List IPCRecord) (metadata : List String)
    (k_initial k_final : Nat) :
    (hybridPath embed fsearch score query structured metadata
      k_initial k_final).Nodup := by
  simp only [hybridPath]
  exact rerankOrEmpty_nodup score query _ k_final (nodup_dedupFirst [] _)

theorem mem_keywordMatches (query : String) (structured : List IPCRecord)
    {t : String} (ht : t ∈ keywordMatches query structured) :
    ∃ r ∈ structured, r.original_text = t := by
  rw [keywordMatches] at ht
  by_cases hc : (containsCI query.data "child".data ||
      containsCI query.data "minor".data) = true
  · rw [if_pos hc] at ht
    rcases List.mem_map.mp ht with ⟨r, hr, hrt⟩
    exact ⟨r, (List.mem_filter.mp hr).1, hrt⟩
  · rw [if_neg hc] at ht
    cases ht

theorem mem_sectionLookup (metadata : List String)
    (g : Option (List Char × List Char)) {t : String}
    (ht : t ∈ sectionLookup metadata g) : t ∈ metadata := by
  cases g with
  | none => cases ht
  | some pr =>
    obtain ⟨ds, ls⟩ := pr
    rw [sectionLookup] at ht
    cases hf : metadata.find? (fun tx =>
        startsWithCI tx.data (['i', 'p', 'c', ' '] ++ ds ++ ls.map lowerChar)) with
    | none =>
      rw [hf] at ht
      cases ht
    | some t' =>
      rw [hf] at ht
      rcases List.mem_cons.mp ht with rfl | habs
      · exact List.mem_of_find?_eq_some hf
      · cases habs

theorem hybridPath_mem {E α : Type} [LinearOrder α]
    (embed : String → E) (fsearch : E → Nat → List Int)
    (score : String → String → α) (query : String)
    (structured : List IPCRecord) (metadata : List String)
    (k_initial k_final : Nat) {t : String}
    (ht : t ∈ hybridPath embed fsearch score query structured metadata
      k_initial k_final) :
    (∃ r ∈ structured, r.original_text = t) ∨ t ∈ metadata := by
  simp only [hybridPath] at ht
  have h1 := rerankOrEmpty_mem score query _ k_final ht
  have h2 := ((mem_dedupFirst [] _).mp h1).1
  rcases List.mem_append.mp h2 with h3 | hsem
  · rcases List.mem_append.mp h3 with hkw | hret
    · exact Or.inl (mem_keywordMatches query structured hkw)
    · exact Or.inr (mem_sectionLookup metadata _ hret)
  · exact Or.inr (mem_semanticMatches metadata _ t hsem)

/-- Per-line record contribution, used to state the loader's contract. -/
def recOfLine (p : String → LineParse) (line : String) : Option IPCRecord :=
  match p line with
  | .ok t => if skipEntry t then none else some (mkRecord t)
  | _ => none

/-- Per-line counted-skip test, used to state the loader's contract. -/
def countedSkip (p : String → LineParse) (line : String) : Bool :=
  match p line with
  | .ok t => skipEntry t
  | _ => false

theorem load_foldl (p : String → LineParse) : ∀ (lines : List String)
    (rs : List IPCRecord) (c : Nat),
    lines.foldl (fun acc line => loadStep acc (p line)) (rs, c) =
      (rs ++ lines.filterMap (recOfLine p), c + lines.countP (countedSkip p)) := by
  intro lines
  induction lines with
  | nil =>
    intro rs c
    simp [List.countP, List.countP.go]
  | cons line rest ih =>
    intro rs c
    rw [List.foldl_cons]
    cases hp : p line with
    | malformed =>
      rw [show loadStep (rs, c) (LineParse.malformed) = (rs, c) from rfl, ih]
      simp [recOfLine, countedSkip, hp, List.countP_cons]
    | errored =>
      rw [show loadStep (rs, c) (LineParse.errored) = (rs, c) from rfl, ih]
      simp [recOfLine, countedSkip, hp, List.countP_cons]
    | ok t =>
      by_cases hs : skipEntry t
      · rw [show loadStep (rs, c) (LineParse.ok t) = (rs, c + 1) from by
          simp [loadStep, hs], ih]
        simp [recOfLine, countedSkip, hp, hs, List.countP_cons]
        omega
      · rw [show loadStep (rs, c) (LineParse.ok t) = (rs ++ [mkRecord t], c) from by
          simp [loadStep, hs], ih]
        simp [recOfLine, countedSkip, hp, hs, List.countP_cons, List.append_assoc]

/-! ### Concrete fixtures used by witnesses and counterexamples -/

/-- Trivial embedding collaborator for concrete instantiations. -/
def uEmbed : String → Unit := fun _ => ()

/-- Vector search returning no indices, for concrete instantiations. -/
def zSearch : Unit → Nat → List Int := fun _ _ => []

/-- Constant re-ranker score, for concrete instantiations. -/
def zScore : String → String → Int := fun _ _ => 0

/-- A corpus record below the threshold of the C1 counterexample. -/
def cxRecA : IPCRecord := ⟨"IPC 1", "sa", some 3, "A"⟩

/-- A corpus record above the threshold of the C1 counterexample. -/
def cxRecB : IPCRecord := ⟨"IPC 2", "sb", some 6, "B"⟩

/-! ### Claim theorems -/

/-- C3: for any three candidate lists (keyword, exact-identifier, vector,
in that priority order) the merge step returns a list containing each
distinct document text exactly once (no duplicates, membership preserved
both ways), ordered by first occurrence in the concatenation
keyword ++ exact ++ vector; duplicates are detected by exact text
equality (String equality in the embedding). -/
theorem merge_dedup_first_occurrence (A B C : List String) :
    (mergeDedup (A ++ B ++ C)).Nodup ∧
    (∀ x, x ∈ mergeDedup (A ++ B ++ C) ↔ x ∈ A ++ B ++ C) ∧
    (mergeDedup (A ++ B ++ C)).Pairwise
      (fun a b => (A ++ B ++ C).indexOf a < (A ++ B ++ C).indexOf b) := by
  refine ⟨nodup_dedupFirst [] _, ?_, pairwise_indexOf_dedupFirst [] _⟩
  intro x
  rw [mergeDedup, mem_dedupFirst]
  simp

/-- C4: for every non-empty list of distinct candidate documents and
every score assignment (one score per (query, document) pair, in a
linearly ordered score type), the re-ranking step returns a subset of
its input with no element repeated, sorted by score in descending
order, truncated to at most k documents; the orchestrator's hybrid path
result is bounded by k_final and its numeric path result by 20. -/
theorem reranker_permutation_subset {E al : Type} [LinearOrder al]
    (embed : String → E) (fsearch : E → Nat → List Int)
    (score : String → String → al) (query : String) (docs : List String)
    (k : Nat) (structured : List IPCRecord) (metadata : List String)
    (k_initial k_final n : Nat)
    (h1 : docs ≠ []) (h2 : docs.Nodup) :
    (∀ x ∈ rerankTop score query docs k, x ∈ docs) ∧
    (rerankTop score query docs k).Nodup ∧
    (rerankTop score query docs k).length ≤ k ∧
    (rerankTop score query docs k).Pairwise
      (fun a b => score query b ≤ score query a) ∧
    (extract_min_years query = none →
      (retrieve_relevant_ipc_hybrid embed fsearch score query structured
        metadata k_initial k_final).length ≤ k_final) ∧
    (extract_min_years query = some n →
      ((structured.filter (passesFilter n)).map
        (fun r => r.original_text)).isEmpty = false →
      (retrieve_relevant_ipc_hybrid embed fsearch score query structured
        metadata k_initial k_final).length ≤ 20) := by
  refine ⟨fun x hx => rerankTop_mem score query docs k hx,
    rerankTop_nodup score query docs k h2,
    rerankTop_length_le score query docs k,
    rerankTop_sorted score query docs k, ?_, ?_⟩
  · intro hnone
    simp only [retrieve_relevant_ipc_hybrid, hnone]
    exact hybridPath_length_le embed fsearch score query structured metadata
      k_initial k_final
  · intro hsome hne
    simp only [retrieve_relevant_ipc_hybrid, hsome, hne, Bool.false_eq_true,
      if_false]
    exact rerankTop_length_le score query _ 20

/-- C4 witness: the re-ranker contract instantiated at a concrete
two-document candidate list with k = 1. -/
theorem reranker_permutation_subset_witness :
    (∀ x ∈ rerankTop zScore "q" ["a", "bb"] 1, x ∈ ["a", "bb"]) ∧
    (rerankTop zScore "q" ["a", "bb"] 1).Nodup ∧
    (rerankTop zScore "q" ["a", "bb"] 1).length ≤ 1 ∧
    (rerankTop zScore "q" ["a", "bb"] 1).Pairwise
      (fun a b => zScore "q" b ≤ zScore "q" a) ∧
    (extract_min_years "q" = none →
      (retrieve_relevant_ipc_hybrid uEmbed zSearch zScore "q" [] [] 2 3).length ≤ 3) ∧
    (extract_min_years "q" = some 0 →
      ((([] : List IPCRecord).filter (passesFilter 0)).map
        (fun r => r.original_text)).isEmpty = false →
      (retrieve_relevant_ipc_hybrid uEmbed zSearch zScore "q" [] [] 2 3).length ≤ 20) :=
  reranker_permutation_subset uEmbed zSearch zScore "q" ["a", "bb"] 1 [] [] 2 3 0
    (by decide) (by decide)

/-- C6 counterexample: the claim says the filter is active exactly when
the query contains "greater than N (years|year)" with the year unit
required; but the source pattern makes the unit optional, so the query
"punishment greater than 5 lashes" activates the filter although it
contains no year-unit phrase. -/
theorem numeric_filter_unit_optional_counterexample :
    (extract_min_years "punishment greater than 5 lashes").isSome = true ∧
    hasGTYearsPhrase "punishment greater than 5 lashes".data = false := by
  constructor
  · decide
  · decide

/-- C6 (amended): the numeric filter is active exactly when the query
contains "greater than N" (case-insensitive) with an OPTIONAL year unit;
a query with no such phrase leaves the filter inactive (and extraction
is a total function, so no error is possible). -/
theorem numeric_filter_activation_iff (q : String) :
    (extract_min_years q).isSome = hasGTNumPhrase q.data :=
  exists_mem_hasGTNum q.data

/-- C9: the vector candidate generator is total on arbitrary index lists
(including negative or too-large indices): it equals the in-range
indices filtered in order, each contributing metadata[idx], and every
candidate it emits is an element of the metadata list. -/
theorem vector_candidates_safe (metadata : List String) (idxs : List Int) :
    semanticMatches metadata idxs =
      (idxs.filter (fun i => decide (0 ≤ i ∧ i < (metadata.length : Int)))).map
        (fun i => metadata.getD i.toNat "") ∧
    (∀ x ∈ semanticMatches metadata idxs, x ∈ metadata) := by
  refine ⟨?_, fun x hx => mem_semanticMatches metadata idxs x hx⟩
  induction idxs with
  | nil => rfl
  | cons i rest ih =>
    by_cases h : 0 ≤ i ∧ i < (metadata.length : Int)
    · have hlt : i.toNat < metadata.length := by omega
      rw [semanticMatches, dif_pos h, List.filter_cons, if_pos (by simpa using h),
        List.map_cons, ih]
      congr 1
      rw [List.getD_eq_getElem metadata "" hlt]
      rfl
    · rw [semanticMatches, dif_neg h, List.filter_cons,
        if_neg (by simpa using h), ih]

/-- C9 witness: the vector-candidate contract at a concrete metadata
list and an index list containing a negative and a too-large index. -/
theorem vector_candidates_safe_witness :
    semanticMatches ["ma", "mb"] [1, -1, 5, 0] =
      (([1, -1, 5, 0] : List Int).filter
        (fun i => decide (0 ≤ i ∧ i < ((["ma", "mb"] : List String).length : Int)))).map
        (fun i => (["ma", "mb"] : List String).getD i.toNat "") ∧
    (∀ x ∈ semanticMatches ["ma", "mb"] [1, -1, 5, 0], x ∈ ["ma", "mb"]) :=
  vector_candidates_safe ["ma", "mb"] [1, -1, 5, 0]

/-- C1 counterexample: as stated, the claim quantifies over every query
CONTAINING a phrase "greater than N years"; but the source uses the
FIRST "greater than M" match (unit optional) as the threshold, so a
query whose first match has a different number filters by that number
instead.  Here the query contains "greater than 5 years", a record with
punishment_years 6 > 5 exists, yet the result also returns the text of
a record with punishment_years 3 (the code filtered by 2). -/
theorem numeric_path_claimed_phrase_counterexample :
    containsGTYearsN "greater than 2 apples need greater than 5 years".data 5 = true ∧
    (∃ r ∈ [cxRecA, cxRecB], passesFilter 5 r = true) ∧
    ¬ (∀ t ∈ retrieve_relevant_ipc_hybrid uEmbed zSearch zScore
          "greater than 2 apples need greater than 5 years" [cxRecA, cxRecB] [] 3 3,
        ∃ r ∈ [cxRecA, cxRecB], passesFilter 5 r = true ∧ r.original_text = t) := by
  refine ⟨by decide, by decide, by decide⟩

/-- C1 (amended): for every query for which the numeric-filter extractor
(first match of "greater than N", year unit optional) yields threshold
N, and every corpus in which at least one record has punishment_years
non-null and strictly greater than N, the retriever takes the numeric
path and returns a non-empty list in which every returned text is the
original_text of some record whose punishment_years is strictly greater
than N (no hybrid-path candidate appears in the result). -/
theorem numeric_path_only_matching_records {E al : Type} [LinearOrder al]
    (embed : String → E) (fsearch : E → Nat → List Int)
    (score : String → String → al) (query : String)
    (structured : List IPCRecord) (metadata : List String)
    (k_initial k_final n : Nat)
    (h1 : extract_min_years query = some n)
    (h2 : ∃ r ∈ structured, ∃ y, r.punishment_years = some y ∧ n < y) :
    retrieve_relevant_ipc_hybrid embed fsearch score query structured metadata
      k_initial k_final ≠ [] ∧
    (∀ t ∈ retrieve_relevant_ipc_hybrid embed fsearch score query structured
        metadata k_initial k_final,
      ∃ r ∈ structured, ∃ y, r.punishment_years = some y ∧ n < y ∧
        r.original_text = t) := by
  obtain ⟨r, hr, y, hy, hny⟩ := h2
  have hpf : passesFilter n r = true := by
    rw [passesFilter, hy]
    exact decide_eq_true hny
  have hmem : r.original_text ∈
      (structured.filter (passesFilter n)).map (fun r => r.original_text) :=
    List.mem_map_of_mem _ (List.mem_filter.mpr ⟨hr, hpf⟩)
  have hne : (structured.filter (passesFilter n)).map
      (fun r => r.original_text) ≠ [] :=
    List.ne_nil_of_mem hmem
  have hie : ((structured.filter (passesFilter n)).map
      (fun r => r.original_text)).isEmpty = false := by
    cases hl : (structured.filter (passesFilter n)).map (fun r => r.original_text) with
    | nil => exact absurd hl hne
    | cons a as => rfl
  have hret : retrieve_relevant_ipc_hybrid embed fsearch score query structured
      metadata k_initial k_final =
      rerankTop score query
        ((structured.filter (passesFilter n)).map (fun r => r.original_text)) 20 := by
    simp [retrieve_relevant_ipc_hybrid, h1, hie]
  constructor
  · rw [hret]
    exact rerankTop_ne_nil score query _ 20 hne (by norm_num)
  · intro t ht
    rw [hret] at ht
    have hmem2 := rerankTop_mem score query _ 20 ht
    rcases List.mem_map.mp hmem2 with ⟨r2, hr2, hrt⟩
    rcases List.mem_filter.mp hr2 with ⟨hr2mem, hr2pf⟩
    refine ⟨r2, hr2mem, ?_⟩
    cases hys : r2.punishment_years with
    | none =>
      rw [passesFilter, hys] at hr2pf
      cases hr2pf
    | some y2 =>
      rw [passesFilter, hys] at hr2pf
      exact ⟨y2, rfl, of_decide_eq_true hr2pf, hrt⟩

/-- C1 witness: the amended statement at a one-record corpus whose only
record (punishment_years 6) passes the threshold 5. -/
theorem numeric_path_only_matching_records_witness :
    retrieve_relevant_ipc_hybrid uEmbed zSearch zScore "greater than 5 years"
      [cxRecB] [] 3 3 ≠ [] ∧
    (∀ t ∈ retrieve_relevant_ipc_hybrid uEmbed zSearch zScore "greater than 5 years"
        [cxRecB] [] 3 3,
      ∃ r ∈ [cxRecB], ∃ y, r.punishment_years = some y ∧ 5 < y ∧
        r.original_text = t) :=
  numeric_path_only_matching_records uEmbed zSearch zScore "greater than 5 years"
    [cxRecB] [] 3 3 5 (by decide) ⟨cxRecB, by decide, 6, by decide, by decide⟩

/-- C2: when the numeric-filter phrase is detected but no corpus record
passes the filter, the retriever does not return the empty list
directly: it runs the full hybrid path (keyword, exact-identifier and
vector candidate generation, merge, re-rank) and its result equals what
the hybrid path produces for that query. -/
theorem numeric_filter_empty_falls_back {E al : Type} [LinearOrder al]
    (embed : String → E) (fsearch : E → Nat → List Int)
    (score : String → String → al) (query : String)
    (structured : List IPCRecord) (metadata : List String)
    (k_initial k_final n : Nat)
    (h1 : extract_min_years query = some n)
    (h2 : (structured.filter (passesFilter n)).map (fun r => r.original_text) = []) :
    retrieve_relevant_ipc_hybrid embed fsearch score query structured metadata
      k_initial k_final =
    hybridPath embed fsearch score query structured metadata k_initial k_final := by
  simp [retrieve_relevant_ipc_hybrid, h1, h2]

/-- C2 witness: a query that matches the filter pattern lexically with a
threshold (77) no record meets; the result equals the hybrid path's. -/
theorem numeric_filter_empty_falls_back_witness :
    extract_min_years "maximum punishment greater than 77 years" = some 77 ∧
    (([cxRecA, cxRecB].filter (passesFilter 77)).map
      (fun r => r.original_text)) = [] ∧
    retrieve_relevant_ipc_hybrid uEmbed zSearch zScore
        "maximum punishment greater than 77 years" [cxRecA, cxRecB] ["M"] 3 3 =
      hybridPath uEmbed zSearch zScore
        "maximum punishment greater than 77 years" [cxRecA, cxRecB] ["M"] 3 3 :=
  ⟨by decide, by decide,
    numeric_filter_empty_falls_back uEmbed zSearch zScore
      "maximum punishment greater than 77 years" [cxRecA, cxRecB] ["M"] 3 3 77
      (by decide) (by decide)⟩

/-- C5: parse_punishment_years follows the five-step severity rule
exactly: (1) no "Punishment:" clause yields none; (2) otherwise, with at
least one "A to B years" range present, the result is the maximum bound
seen across all ranges; (3) else the first "N years" match is used;
(4) else a clause mentioning "life" yields 999, and otherwise one
mentioning "death" yields 1000; (5) else none.  The spec's concrete
examples evaluate as stated. -/
theorem parse_punishment_years_severity_rule :
    (∀ t : String, findPunishClause t.data = none →
      (parse_punishment_years t).1 = none) ∧
    (∀ t : String, findallRanges (clauseOf t) ≠ [] →
      (parse_punishment_years t).1 =
        some (maxOfRanges (findallRanges (clauseOf t)))) ∧
    (∀ t : String, ∀ nv : Nat, findallRanges (clauseOf t) = [] →
      firstSingleYear (clauseOf t) = some nv →
      (parse_punishment_years t).1 = some nv) ∧
    (∀ t : String, findallRanges (clauseOf t) = [] →
      firstSingleYear (clauseOf t) = none →
      containsCI (clauseOf t) "life".data = true →
      (parse_punishment_years t).1 = some 999) ∧
    (∀ t : String, findallRanges (clauseOf t) = [] →
      firstSingleYear (clauseOf t) = none →
      containsCI (clauseOf t) "life".data = false →
      containsCI (clauseOf t) "death".data = true →
      (parse_punishment_years t).1 = some 1000) ∧
    (∀ t : String, findallRanges (clauseOf t) = [] →
      firstSingleYear (clauseOf t) = none →
      containsCI (clauseOf t) "life".data = false →
      containsCI (clauseOf t) "death".data = false →
      (parse_punishment_years t).1 = none) ∧
    (parse_punishment_years "Punishment: 3 to 7 years").1 = some 7 ∧
    (parse_punishment_years "Punishment: imprisonment for life").1 = some 999 ∧
    (parse_punishment_years "Punishment: death").1 = some 1000 := by
  refine ⟨?_, ?_, ?_, ?_, ?_, ?_, by decide, by decide, by decide⟩
  · intro t h
    have hcl : clauseOf t = [] := by rw [clauseOf, h]
    simp only [parse_punishment_years, hcl]
    rfl
  · intro t h
    have hie : (findallRanges (clauseOf t)).isEmpty = false := by
      cases hl : findallRanges (clauseOf t) with
      | nil => exact absurd hl h
      | cons a as => rfl
    simp [parse_punishment_years, yearsOfClause, hie]
  · intro t nv h h2
    simp [parse_punishment_years, yearsOfClause, h, h2]
  · intro t h h2 h3
    simp [parse_punishment_years, yearsOfClause, h, h2, h3]
  · intro t h h2 h3 h4
    simp [parse_punishment_years, yearsOfClause, h, h2, h3, h4]
  · intro t h h2 h3 h4
    simp [parse_punishment_years, yearsOfClause, h, h2, h3, h4]

/-- C5 witness: the no-clause case applied at a concrete clause-free
text. -/
theorem parse_punishment_years_severity_rule_witness :
    findPunishClause "general exceptions apply".data = none ∧
    (parse_punishment_years "general exceptions apply").1 = none :=
  ⟨by decide,
    parse_punishment_years_severity_rule.1 "general exceptions apply" (by decide)⟩

/-- C7 counterexample: the claim says that with no "Punishment:" clause
the summary is still the raw text WITHOUT its leading label; but the
source's conditional returns the raw text unchanged in that case, label
included.  The text used is loadable (length at least 20, no "nan"). -/
theorem summary_keeps_label_counterexample :
    description_summary "IPC 999: Example offence text here" =
      "IPC 999: Example offence text here" ∧
    summarySpec "IPC 999: Example offence text here" =
      "Example offence text here" ∧
    summarySpec "IPC 999: Example offence text here" ≠
      description_summary "IPC 999: Example offence text here" ∧
    20 ≤ "IPC 999: Example offence text here".length ∧
    containsCI "IPC 999: Example offence text here".data "nan".data = false := by
  refine ⟨by decide, by decide, by decide, by decide, by decide⟩

/-- C7 (amended): when the raw text contains "Punishment:"
(case-sensitively) the summary equals the text after the first colon,
truncated before "Punishment:" and stripped (the spec's description,
summarySpec); when it does not, the summary is the raw text unchanged,
leading label retained. -/
theorem summary_contract (t : String) :
    (containsCS t.data "Punishment:".data = true →
      description_summary t = summarySpec t) ∧
    (containsCS t.data "Punishment:".data = false →
      description_summary t = t) := by
  constructor
  · intro h
    rw [description_summary, if_pos h, summarySpec]
  · intro h
    rw [description_summary, if_neg (by rw [h]; exact Bool.false_ne_true)]

/-- C7 witness: the with-clause branch at a concrete record text. -/
theorem summary_contract_witness :
    containsCS "IPC 1: Theft. Punishment: 2 years".data "Punishment:".data = true ∧
    description_summary "IPC 1: Theft. Punishment: 2 years" =
      summarySpec "IPC 1: Theft. Punishment: 2 years" :=
  ⟨by decide, (summary_contract "IPC 1: Theft. Punishment: 2 years").1 (by decide)⟩

/-- C8 counterexample: the claim reads the skip condition as containing
the literal "nan"; the source lower-cases the text first, so the
all-caps text "FINANCE FRAUD PROVISIONS ACT" (28 characters, which does
not contain "nan") is nevertheless skipped and counted, because its
lower-casing contains "nan" inside "finance". -/
theorem loader_nan_case_insensitive_counterexample :
    load_data_structured (some ["FINANCE FRAUD PROVISIONS ACT"])
      (fun l => LineParse.ok l) = Except.ok ([], 1) ∧
    20 ≤ "FINANCE FRAUD PROVISIONS ACT".length ∧
    containsCS "FINANCE FRAUD PROVISIONS ACT".data "nan".data = false := by
  refine ⟨by rfl, by decide, by decide⟩

/-- C8 (amended): loading raises exactly when the corpus file is
missing; for an existing file, lines whose JSON parse fails are skipped
without aborting, well-formed entries whose text is shorter than 20
characters or whose LOWER-CASED text contains "nan" are skipped and
counted, and each remaining entry yields exactly one structured record,
in file order (recOfLine and countedSkip express this per line). -/
theorem loader_contract (p : String → LineParse) (lines : List String) :
    load_data_structured none p = Except.error "FileNotFoundError" ∧
    load_data_structured (some lines) p =
      Except.ok (lines.filterMap (recOfLine p), lines.countP (countedSkip p)) := by
  refine ⟨rfl, ?_⟩
  rw [load_data_structured, load_foldl]
  simp

/-- A corpus record used twice in the C10 counterexample. -/
def dupRec : IPCRecord := ⟨"IPC 5", "d", some 10, "T"⟩

/-- C10 counterexample: with a corpus containing two records sharing the
same original_text, the numeric path re-ranks the filtered texts without
deduplication, so the returned list contains a duplicate text. -/
theorem retrieval_duplicates_counterexample :
    ¬ (retrieve_relevant_ipc_hybrid uEmbed zSearch zScore "greater than 5 years"
        [dupRec, dupRec] [] 1 5).Nodup := by
  decide

/-- C10 (amended): on either path, every element of the returned list is
the original_text of some corpus record or an element of the metadata
list (the retriever never fabricates a text); and provided the corpus
records' original texts are pairwise distinct, the returned list
contains no duplicate texts. -/
theorem retrieval_provenance_nodup {E al : Type} [LinearOrder al]
    (embed : String → E) (fsearch : E → Nat → List Int)
    (score : String → String → al) (query : String)
    (structured : List IPCRecord) (metadata : List String)
    (k_initial k_final : Nat) :
    (∀ t ∈ retrieve_relevant_ipc_hybrid embed fsearch score query structured
        metadata k_initial k_final,
      (∃ r ∈ structured, r.original_text = t) ∨ t ∈ metadata) ∧
    ((structured.map (fun r => r.original_text)).Nodup →
      (retrieve_relevant_ipc_hybrid embed fsearch score query structured
        metadata k_initial k_final).Nodup) := by
  cases hx : extract_min_years query with
  | none =>
    have heq : retrieve_relevant_ipc_hybrid embed fsearch score query structured
        metadata k_initial k_final =
        hybridPath embed fsearch score query structured metadata
          k_initial k_final := by
      simp [retrieve_relevant_ipc_hybrid, hx]
    rw [heq]
    exact ⟨fun t ht => hybridPath_mem embed fsearch score query structured
        metadata k_initial k_final ht,
      fun _ => hybridPath_nodup embed fsearch score query structured metadata
        k_initial k_final⟩
  | some n =>
    by_cases hie : ((structured.filter (passesFilter n)).map
        (fun r => r.original_text)).isEmpty = true
    · have heq : retrieve_relevant_ipc_hybrid embed fsearch score query structured
          metadata k_initial k_final =
          hybridPath embed fsearch score query structured metadata
            k_initial k_final := by
        simp [retrieve_relevant_ipc_hybrid, hx, hie]
      rw [heq]
      exact ⟨fun t ht => hybridPath_mem embed fsearch score query structured
          metadata k_initial k_final ht,
        fun _ => hybridPath_nodup embed fsearch score query structured metadata
          k_initial k_final⟩
    · have hie2 : ((structured.filter (passesFilter n)).map
          (fun r => r.original_text)).isEmpty = false :=
        Bool.eq_false_iff.mpr hie
      have heq : retrieve_relevant_ipc_hybrid embed fsearch score query structured
          metadata k_initial k_final =
          rerankTop score query
            ((structured.filter (passesFilter n)).map
              (fun r => r.original_text)) 20 := by
        simp [retrieve_relevant_ipc_hybrid, hx, hie2]
      rw [heq]
      constructor
      · intro t ht
        have hm := rerankTop_mem score query _ 20 ht
        rcases List.mem_map.mp hm with ⟨r, hr, hrt⟩
        exact Or.inl ⟨r, (List.mem_filter.mp hr).1, hrt⟩
      · intro hnd
        refine rerankTop_nodup score query _ 20 ?_
        exact hnd.sublist ((List.filter_sublist structured).map
          (fun r => r.original_text))

/-- C10 witness: the provenance and distinctness facts at a concrete
one-record corpus and metadata list. -/
theorem retrieval_provenance_nodup_witness :
    (∀ t ∈ retrieve_relevant_ipc_hybrid uEmbed zSearch zScore "q" [cxRecA]
        ["M"] 2 3,
      (∃ r ∈ [cxRecA], r.original_text = t) ∨ t ∈ ["M"]) ∧
    ((([cxRecA] : List IPCRecord).map (fun r => r.original_text)).Nodup →
      (retrieve_relevant_ipc_hybrid uEmbed zSearch zScore "q" [cxRecA]
        ["M"] 2 3).Nodup) :=
  retrieval_provenance_nodup uEmbed zSearch zScore "q" [cxRecA] ["M"] 2 3

/-- C3 witness: the merge contract at three concrete overlapping lists. -/
theorem merge_dedup_first_occurrence_witness :
    (mergeDedup (["a", "b"] ++ ["b", "c"] ++ ["c"])).Nodup ∧
    (∀ x, x ∈ mergeDedup (["a", "b"] ++ ["b", "c"] ++ ["c"]) ↔
      x ∈ ["a", "b"] ++ ["b", "c"] ++ ["c"]) ∧
    (mergeDedup (["a", "b"] ++ ["b", "c"] ++ ["c"])).Pairwise
      (fun a b => (["a", "b"] ++ ["b", "c"] ++ ["c"]).indexOf a <
        (["a", "b"] ++ ["b", "c"] ++ ["c"]).indexOf b) :=
  merge_dedup_first_occurrence ["a", "b"] ["b", "c"] ["c"]

/-- C6 witness: the amended activation condition at a concrete query. -/
theorem numeric_filter_activation_iff_witness :
    (extract_min_years "jail for greater than 9 years").isSome =
      hasGTNumPhrase "jail for greater than 9 years".data :=
  numeric_filter_activation_iff "jail for greater than 9 years"

/-- C8 witness: the loader contract at a concrete one-line file. -/
theorem loader_contract_witness :
    load_data_structured none (fun l => LineParse.ok l) =
      Except.error "FileNotFoundError" ∧
    load_data_structured (some ["IPC 302: Murder. Punishment: death"])
        (fun l => LineParse.ok l) =
      Except.ok
        ((["IPC 302: Murder. Punishment: death"].filterMap
          (recOfLine (fun l => LineParse.ok l))),
         ["IPC 302: Murder. Punishment: death"].countP
          (countedSkip (fun l => LineParse.ok l))) :=
  loader_contract (fun l => LineParse.ok l) ["IPC 302: Murder. Punishment: death"]

end IPCBot
